import Mathlib

/-!
Verification development for the glow (noether) example engine.

The repository's example `src/examples/cifar10.cpp` consumes a small
computation-graph engine (Tensor / Handle / Network / Optimizer).  Pure
operations of the example file are embedded directly; engine operations whose
implementation lives outside the example file are modelled from the
specification, as marked on each definition.  Floating-point values are
modelled as exact rationals.
-/

namespace Glow

/-- Modelled from the spec: the error taxonomy of §7 (Tensor/Handle/Network
error conditions); the engine implementation is not part of the example file. -/
inductive TensorError where
  | InvalidShape
  | OutOfBounds
  | EmptyTensor
  | ShapeMismatch
  deriving DecidableEq, Repr

/-- Modelled from the spec: a Tensor is a shape together with row-major
contiguous storage (§3); storage is flattened into a single list. -/
structure STensor where
  shape : List ℕ
  data : List ℚ
  deriving DecidableEq

/-- The leading (slowest-varying) dimension of a tensor. -/
def leadingDim (t : STensor) : ℕ := t.shape.headD 0

/-- Number of elements in one leading-dimension slice (product of the
remaining dimensions), row-major layout. -/
def sliceSize (t : STensor) : ℕ := t.shape.tail.prod

/-- Modelled from the spec: `extractSlice(i)` returns the i-th
leading-dimension slice as a tensor with leading dimension reduced to 1
(§4.1, implementation's documented choice); always copies. -/
def STensor.extractSlice (t : STensor) (i : ℕ) : Except TensorError STensor :=
  if i < leadingDim t then
    .ok ⟨1 :: t.shape.tail, (t.data.drop (i * sliceSize t)).take (sliceSize t)⟩
  else
    .error .OutOfBounds

/-- Modelled from the spec: `copyConsecutiveSlices(src, offset)` copies
`leadingDim(self)` consecutive leading-dimension slices starting at `offset`
in `src` into `self`; fails with `OutOfBounds` if
`offset + leadingDim(self) > leadingDim(src)` (§4.1). -/
def STensor.copyConsecutiveSlices (self src : STensor) (offset : ℕ) :
    Except TensorError STensor :=
  if leadingDim src < offset + leadingDim self then
    .error .OutOfBounds
  else
    .ok ⟨self.shape,
      (src.data.drop (offset * sliceSize src)).take (leadingDim self * sliceSize src)⟩

/-- Helper for `maxArg`: returns the index and value of the first maximal
element of a list, or `none` on the empty list. -/
def maxArgVal : List ℚ → Option (ℕ × ℚ)
  | [] => none
  | v :: rest =>
    match maxArgVal rest with
    | none => some (0, v)
    | some (j, m) => if v < m then some (j + 1, m) else some (0, v)

/-- Modelled from the spec: `maxArg()` fails with `EmptyTensor` on a
zero-element tensor, otherwise returns the position of the first maximal
element, ties broken by lowest index (§4.1). -/
def STensor.maxArg (t : STensor) : Except TensorError ℕ :=
  match maxArgVal t.data with
  | none => .error .EmptyTensor
  | some (j, _) => .ok j

/-- Modelled from the spec: the convolution forward pass slides a `k`-wide
window with stride `s` over the input zero-padded by `p` on each side (§4.2);
the output positions along one axis are exactly the window placements that fit
inside the padded extent.  The count is taken operationally, as the number of
such placements. -/
def convWindowCount (inW k s p : ℕ) : ℕ :=
  ((Finset.range (inW + 2 * p + 1)).filter (fun t => t * s + k ≤ inW + 2 * p)).card

/-- Modelled from the spec: output shape of a Convolution node over an
NHWC-shaped input (`createConvNode(input, filters, k, stride, pad)`). -/
def convShape (filters k s p : ℕ) : List ℕ → List ℕ
  | [n, h, w, _c] => [n, convWindowCount h k s p, convWindowCount w k s p, filters]
  | sh => sh

/-- Modelled from the spec: output shape of a MaxPool node
(`createMaxPoolNode(input, kind, size, stride, pad)`), analogous pooled-window
formula per axis (§4.2). -/
def poolShape (k s p : ℕ) : List ℕ → List ℕ
  | [n, h, w, c] => [n, (h + 2 * p - k) / s + 1, (w + 2 * p - k) / s + 1, c]
  | sh => sh

/-- Modelled from the spec: ReLU is elementwise, so it preserves the shape. -/
def reluShape (sh : List ℕ) : List ℕ := sh

/-- Modelled from the spec: FullyConnected flattens the input per example and
produces `outW` outputs (§4.2). -/
def fcShape (outW : ℕ) : List ℕ → List ℕ
  | n :: _ => [n, outW]
  | [] => []

/-- Modelled from the spec: SoftMaxWithLoss normalizes over the class axis,
preserving the shape of its logits input. -/
def softmaxShape (sh : List ℕ) : List ℕ := sh

/-- The shape of the softmax root produced by `createSimpleNet` in
`src/examples/cifar10.cpp` (conv 16/5/1/2, relu, pool 2/2/0, conv 20/5/1/2,
relu, pool 2/2/0, conv 20/5/1/2, relu, pool 2/2/0, fc 10, relu, softmax). -/
def simpleNetOutShape (inShape : List ℕ) : List ℕ :=
  softmaxShape (reluShape (fcShape 10
    (poolShape 2 2 0 (reluShape (convShape 20 5 1 2
      (poolShape 2 2 0 (reluShape (convShape 20 5 1 2
        (poolShape 2 2 0 (reluShape (convShape 16 5 1 2 inShape)))))))))))

/-- The label-name table of `testCIFAR10` in `src/examples/cifar10.cpp`. -/
def textualLabels : List String :=
  ["airplane", "automobile", "bird", "cat", "deer",
   "dog", "frog", "horse", "ship", "truck"]

/-- Modelled from the spec: binding an input tensor to a variable node in
`infer` checks the shape at bind time; zero or mismatched dimensions are an
`InvalidShape` error (§4.3, §7). -/
def bindCheckInfer (varShape : List ℕ) (t : STensor) : Except TensorError Unit :=
  if 0 ∈ t.shape ∨ t.shape ≠ varShape then .error .InvalidShape else .ok ()

/-- Modelled from the spec: `train` binds caller-provided full-size dataset
tensors and copies minibatch-sized leading-dimension slices out of them
(§4.3), so bind-time validation compares the per-example (non-leading)
dimensions against the variable's; zero or mismatched dimensions are an
`InvalidShape` error. -/
def bindCheckTrain (varShape : List ℕ) (t : STensor) : Except TensorError Unit :=
  if 0 ∈ t.shape ∨ t.shape.tail ≠ varShape.tail then .error .InvalidShape else .ok ()

/-- Runs a bind-time check over a list of (variable shape, bound tensor)
pairs, stopping at the first failure. -/
def bindAllWith (check : List ℕ → STensor → Except TensorError Unit) :
    List (List ℕ × STensor) → Except TensorError Unit
  | [] => .ok ()
  | (vs, t) :: rest =>
    match check vs t with
    | .error e => .error e
    | .ok _ => bindAllWith check rest

/-- Modelled from the spec: `infer(root, inputNodes, inputTensors)` binds the
given tensors (validating shapes at bind time), then runs forward only and
returns the root's output (§4.3).  The forward computation is abstracted as a
pure function of the bound tensors so that the bind-time error path can be
shown independent of it. -/
def Network.infer (forward : List STensor → STensor)
    (binds : List (List ℕ × STensor)) : Except TensorError STensor :=
  match bindAllWith bindCheckInfer binds with
  | .error e => .error e
  | .ok _ => .ok (forward (binds.map Prod.snd))

/-- Modelled from the spec: `train(root, iterations, inputNodes, inputTensors)`
binds the dataset tensors (validating shapes at bind time) and then runs
`iterations` minibatch steps (§4.3); the per-step work is abstracted as a pure
function iterated on the bound tensors. -/
def Network.train (body : List STensor → List STensor) (iterations : ℕ)
    (binds : List (List ℕ × STensor)) : Except TensorError (List STensor) :=
  match bindAllWith bindCheckTrain binds with
  | .error e => .error e
  | .ok _ => .ok (body^[iterations] (binds.map Prod.snd))

/-- The training configuration record set by `Network::getConfig` in
`src/examples/cifar10.cpp` (learningRate, momentum, L2Decay). -/
structure TrainingConfig where
  learningRate : ℚ
  momentum : ℚ
  L2Decay : ℚ
  deriving DecidableEq

/-- One trainable parameter element: its weight `w`, accumulated gradient `g`
and momentum buffer `v`. -/
structure ParamState where
  weight : ℚ
  grad : ℚ
  velocity : ℚ
  deriving DecidableEq

/-- Modelled from the spec: the SGD update with momentum and L2 weight decay
applied to one parameter element at the end of a minibatch (§4.4):
g' = g + L2Decay*w, v := momentum*v - learningRate*g', w := w + v, and the
gradient accumulator is reset to zero immediately afterwards. -/
def sgdElem (c : TrainingConfig) (p : ParamState) : ParamState :=
  let gPrime := p.grad + c.L2Decay * p.weight
  let vNew := c.momentum * p.velocity - c.learningRate * gPrime
  ⟨p.weight + vNew, 0, vNew⟩

/-- Modelled from the spec: the Optimizer applies the update rule once per
trainable parameter element after backward completes for the minibatch. -/
def optimizerStep (c : TrainingConfig) (ps : List ParamState) : List ParamState :=
  ps.map (sgdElem c)

/-- Accumulates one minibatch's backward-pass gradients into the parameter
gradient accumulators. -/
def applyGrads (ps : List ParamState) (gs : List ℚ) : List ParamState :=
  List.zipWith (fun p g => ⟨p.weight, p.grad + g, p.velocity⟩) ps gs

/-- Modelled from the spec: a training run is the deterministic iteration of
minibatch steps — accumulate the step's gradients, then apply the optimizer
once — over the schedule of per-step gradients. -/
def trainRun (c : TrainingConfig) (init : List ParamState)
    (sched : List (List ℚ)) : List ParamState :=
  sched.foldl (fun ps gs => optimizerStep c (applyGrads ps gs)) init

/-- Modelled from the spec: deterministic parameter initialization from a
seed, as a linear congruential sequence of rationals in [0, 1). -/
def initParams (seed n : ℕ) : List ParamState :=
  (List.range n).map (fun i =>
    ⟨((seed + 1) * 1103515245 + i * 12345) % 65536 / 65536, 0, 0⟩)

/-- State threaded through the CIFAR loading loop of `testCIFAR10`: the byte
counter `idx`, the labels tensor and the images tensor (as total maps from
indices to stored values). -/
structure LoadState where
  idx : ℕ
  labels : ℕ → ℕ
  images : ℕ → ℕ → ℕ → ℕ → ℚ

/-- One byte of the input stream: the value of `dbInput.get()` after the
`static_cast<uint8_t>` in the loading loop, i.e. reduced modulo 256. -/
def readByte (f : ℕ → ℕ) (i : ℕ) : ℕ := f i % 256

/-- The loop body statement `imagesH.at({w, x, y, z}) = v` followed by
`idx++`. -/
def storePixel (w x y z : ℕ) (v : ℚ) (s : LoadState) : LoadState :=
  ⟨s.idx + 1, s.labels,
    fun a b c d => if a = w ∧ b = x ∧ c = y ∧ d = z then v else s.images a b c d⟩

/-- The innermost `for (x ...)` loop of the CIFAR loading code, run for
`x = 0 .. n-1` with fixed image `w`, file row `y` and plane `z`; each
iteration stores the next stream byte divided by 255 at `{w, x, y, z}`. -/
def loopX (f : ℕ → ℕ) (w y z n : ℕ) (s : LoadState) : LoadState :=
  (List.range n).foldl
    (fun st x => storePixel w x y z ((readByte f st.idx : ℚ) / 255) st) s

/-- The `for (y ...)` loop: one 32-pixel row read per iteration. -/
def loopY (f : ℕ → ℕ) (w z n : ℕ) (s : LoadState) : LoadState :=
  (List.range n).foldl (fun st y => loopX f w y z 32 st) s

/-- The `for (z ...)` loop over color planes: 32 rows per plane iteration. -/
def loopZ (f : ℕ → ℕ) (w n : ℕ) (s : LoadState) : LoadState :=
  (List.range n).foldl (fun st z => loopY f w z 32 st) s

/-- One outer iteration of the loading loop: read the label byte of image `w`
into the labels tensor (advancing `idx`), then load the 3 color planes. -/
def loadImage (f : ℕ → ℕ) (w : ℕ) (s : LoadState) : LoadState :=
  loopZ f w 3
    ⟨s.idx + 1,
      fun a => if a = w then readByte f s.idx else s.labels a,
      s.images⟩

/-- The outer `for (w ...)` loop over images. -/
def loopW (f : ℕ → ℕ) (n : ℕ) (s : LoadState) : LoadState :=
  (List.range n).foldl (fun st w => loadImage f w st) s

/-- `cifarImageSize` from `src/examples/cifar10.cpp`. -/
def cifarImageSize : ℕ := 1 + 32 * 32 * 3

/-- `cifarNumImages` from `src/examples/cifar10.cpp`. -/
def cifarNumImages : ℕ := 10000

/-- The complete CIFAR loading loop of `testCIFAR10`, starting from `idx = 0`
and zero-initialized tensors, over the byte stream `f`. -/
def loadCIFAR (f : ℕ → ℕ) : LoadState :=
  loopW f cifarNumImages ⟨0, fun _ => 0, fun _ _ _ _ => 0⟩

theorem maxArgVal_eq_none_iff (l : List ℚ) : maxArgVal l = none ↔ l = [] := by
  cases l with
  | nil => simp [maxArgVal]
  | cons v rest =>
    simp only [maxArgVal]
    cases h : maxArgVal rest with
    | none => simp
    | some jm =>
      obtain ⟨j, m⟩ := jm
      by_cases hvm : v < m <;> simp [hvm]

theorem maxArgVal_spec (l : List ℚ) (j : ℕ) (m : ℚ) (h : maxArgVal l = some (j, m)) :
    j < l.length ∧ l.getD j 0 = m ∧ (∀ i < l.length, l.getD i 0 ≤ m) ∧
      (∀ i < j, l.getD i 0 < m) := by
  induction l generalizing j m with
  | nil => simp [maxArgVal] at h
  | cons v rest ih =>
    simp only [maxArgVal] at h
    cases hrest : maxArgVal rest with
    | none =>
      rw [hrest] at h
      have hnil : rest = [] := (maxArgVal_eq_none_iff rest).1 hrest
      subst hnil
      simp only [Option.some.injEq, Prod.mk.injEq] at h
      obtain ⟨hj, hm⟩ := h
      subst hj; subst hm
      refine ⟨by simp, by simp, ?_, by omega⟩
      intro i hi
      have hi0 : i = 0 := by simpa using hi
      subst hi0
      simp
    | some jm =>
      obtain ⟨j', m'⟩ := jm
      rw [hrest] at h
      obtain ⟨hj', hm', hmax', hfirst'⟩ := ih j' m' hrest
      by_cases hvm : v < m'
      · simp only [hvm, if_true, Option.some.injEq, Prod.mk.injEq] at h
        obtain ⟨hj, hm⟩ := h
        subst hm
        refine ⟨by simp; omega, ?_, ?_, ?_⟩
        · rw [← hj]; simpa using hm'
        · intro i hi
          cases i with
          | zero => simpa using le_of_lt hvm
          | succ i' =>
            simp only [List.getD_cons_succ]
            exact hmax' i' (by simpa using hi)
        · intro i hi
          cases i with
          | zero => simpa using hvm
          | succ i' =>
            simp only [List.getD_cons_succ]
            exact hfirst' i' (by omega)
      · simp only [hvm, if_false, Option.some.injEq, Prod.mk.injEq] at h
        obtain ⟨hj, hm⟩ := h
        subst hj; subst hm
        refine ⟨by simp, by simp, ?_, by omega⟩
        intro i hi
        cases i with
        | zero => simp
        | succ i' =>
          simp only [List.getD_cons_succ]
          exact le_trans (hmax' i' (by simpa using hi)) (not_lt.1 hvm)

theorem maxArg_ok_of_ne_nil (t : STensor) (h : t.data ≠ []) :
    ∃ j, t.maxArg = .ok j ∧ j < t.data.length ∧
      (∀ i < t.data.length, t.data.getD i 0 ≤ t.data.getD j 0) ∧
      (∀ i < j, t.data.getD i 0 < t.data.getD j 0) := by
  cases hmv : maxArgVal t.data with
  | none => exact absurd ((maxArgVal_eq_none_iff t.data).1 hmv) h
  | some jm =>
    obtain ⟨j, m⟩ := jm
    obtain ⟨hlen, hget, hmax, hfirst⟩ := maxArgVal_spec t.data j m hmv
    refine ⟨j, ?_, hlen, ?_, ?_⟩
    · simp [STensor.maxArg, hmv]
    · intro i hi; rw [hget]; exact hmax i hi
    · intro i hi; rw [hget]; exact hfirst i hi

/-- C3: `maxArg()` fails with `EmptyTensor` on a zero-element tensor;
otherwise it returns the position of the first maximal element, ties broken
by the lowest index. -/
theorem maxArg_spec (t : STensor) :
    (t.data = [] → t.maxArg = .error .EmptyTensor) ∧
    (t.data ≠ [] → ∃ j, t.maxArg = .ok j ∧ j < t.data.length ∧
      (∀ i < t.data.length, t.data.getD i 0 ≤ t.data.getD j 0) ∧
      (∀ i < j, t.data.getD i 0 < t.data.getD j 0)) := by
  constructor
  · intro h
    simp [STensor.maxArg, h, maxArgVal]
  · exact maxArg_ok_of_ne_nil t

/-- C3 witness: on the concrete tensor with data `[1, 3, 3, 2]` the first
maximal element is at index 1. -/
theorem maxArg_spec_witness :
    ∃ j, (STensor.mk [4] [1, 3, 3, 2]).maxArg = .ok j ∧
      j < (STensor.mk [4] [(1 : ℚ), 3, 3, 2]).data.length ∧
      (∀ i < (STensor.mk [4] [(1 : ℚ), 3, 3, 2]).data.length,
        (STensor.mk [4] [(1 : ℚ), 3, 3, 2]).data.getD i 0 ≤
          (STensor.mk [4] [(1 : ℚ), 3, 3, 2]).data.getD j 0) ∧
      (∀ i < j, (STensor.mk [4] [(1 : ℚ), 3, 3, 2]).data.getD i 0 <
        (STensor.mk [4] [(1 : ℚ), 3, 3, 2]).data.getD j 0) :=
  (maxArg_spec (STensor.mk [4] [1, 3, 3, 2])).2 (by simp)

theorem convWindowCount_eq (inW k s p : ℕ) (hs : 0 < s) (hk : k ≤ inW + 2 * p) :
    convWindowCount inW k s p = (inW + 2 * p - k) / s + 1 := by
  unfold convWindowCount
  have hfilter : (Finset.range (inW + 2 * p + 1)).filter
      (fun t => t * s + k ≤ inW + 2 * p) =
      Finset.range ((inW + 2 * p - k) / s + 1) := by
    ext t
    simp only [Finset.mem_filter, Finset.mem_range]
    constructor
    · rintro ⟨_, h2⟩
      have hts : t * s ≤ inW + 2 * p - k := by omega
      have := (Nat.le_div_iff_mul_le hs).2 hts
      omega
    · intro ht
      have h1 : t ≤ (inW + 2 * p - k) / s := by omega
      have h2 : t * s ≤ inW + 2 * p - k := (Nat.le_div_iff_mul_le hs).1 h1
      have h3 : (inW + 2 * p - k) / s ≤ inW + 2 * p - k := Nat.div_le_self _ _
      omega
  rw [hfilter, Finset.card_range]

/-- C2: a Convolution node over an NHWC input with spatial sizes `h`, `w`,
kernel `k`, stride `s`, padding `p` (any valid configuration: positive stride
and kernel fitting in the padded extent) has output spatial size
`floor((inSize + 2p - k)/s) + 1` per axis. -/
theorem conv_output_size (n h w c filters k s p : ℕ) (hs : 0 < s)
    (hh : k ≤ h + 2 * p) (hw : k ≤ w + 2 * p) :
    convShape filters k s p [n, h, w, c] =
      [n, (h + 2 * p - k) / s + 1, (w + 2 * p - k) / s + 1, filters] := by
  simp only [convShape]
  rw [convWindowCount_eq h k s p hs hh, convWindowCount_eq w k s p hs hw]

/-- C2 witness: the first convolution of `createSimpleNet` (input 32×32,
kernel 5, stride 1, padding 2) has output spatial size 32 per axis. -/
theorem conv_output_size_witness :
    convShape 16 5 1 2 [8, 32, 32, 3] =
      [8, (32 + 2 * 2 - 5) / 1 + 1, (32 + 2 * 2 - 5) / 1 + 1, 16] :=
  conv_output_size 8 32 32 3 16 5 1 2 (by decide) (by decide) (by decide)

/-- C4: `copyConsecutiveSlices(src, offset)` fails with `OutOfBounds` exactly
when `offset + leadingDim(self) > leadingDim(src)`; otherwise it copies the
`leadingDim(self)` consecutive leading-dimension slices of `src` starting at
`offset` into `self`. -/
theorem copyConsecutiveSlices_spec (self src : STensor) (offset : ℕ) :
    (self.copyConsecutiveSlices src offset = .error .OutOfBounds ↔
      leadingDim src < offset + leadingDim self) ∧
    (offset + leadingDim self ≤ leadingDim src →
      self.copyConsecutiveSlices src offset =
        .ok ⟨self.shape, (src.data.drop (offset * sliceSize src)).take
          (leadingDim self * sliceSize src)⟩) := by
  unfold STensor.copyConsecutiveSlices
  by_cases h : leadingDim src < offset + leadingDim self
  · constructor
    · simp [h]
    · intro hle; omega
  · constructor
    · simp [h]
    · intro _; rw [if_neg h]

/-- C4 witness: copying one 2-element slice at offset 1 from a 3×2 source into
a 1×2 destination succeeds and produces the middle slice. -/
theorem copyConsecutiveSlices_spec_witness :
    (STensor.mk [1, 2] [0, 0]).copyConsecutiveSlices
        (STensor.mk [3, 2] [1, 2, 3, 4, 5, 6]) 1 =
      .ok ⟨(STensor.mk [1, 2] [(0 : ℚ), 0]).shape,
        ((STensor.mk [3, 2] [(1 : ℚ), 2, 3, 4, 5, 6]).data.drop
            (1 * sliceSize (STensor.mk [3, 2] [(1 : ℚ), 2, 3, 4, 5, 6]))).take
          (leadingDim (STensor.mk [1, 2] [(0 : ℚ), 0]) *
            sliceSize (STensor.mk [3, 2] [(1 : ℚ), 2, 3, 4, 5, 6]))⟩ :=
  (copyConsecutiveSlices_spec (STensor.mk [1, 2] [0, 0])
    (STensor.mk [3, 2] [1, 2, 3, 4, 5, 6]) 1).2 (by decide)

/-- C5: extracting the i-th leading-dimension slice with `extractSlice(i)` and
re-reading it through `copyConsecutiveSlices` at the same offset i reproduces
exactly the original slice of t (round-trip law). -/
theorem extractSlice_roundtrip (t : STensor) (i : ℕ) (s : STensor)
    (hs : t.extractSlice i = .ok s) :
    s.data = (t.data.drop (i * sliceSize t)).take (sliceSize t) ∧
    s.copyConsecutiveSlices t i = .ok s := by
  unfold STensor.extractSlice at hs
  by_cases hi : i < leadingDim t
  · rw [if_pos hi] at hs
    simp only [Except.ok.injEq] at hs
    subst hs
    refine ⟨rfl, ?_⟩
    unfold STensor.copyConsecutiveSlices
    have hld : leadingDim ⟨1 :: t.shape.tail,
        (t.data.drop (i * sliceSize t)).take (sliceSize t)⟩ = 1 := rfl
    rw [hld, if_neg (by omega)]
    simp [one_mul]
  · rw [if_neg hi] at hs
    exact absurd hs (by simp)

/-- C5 witness: for the 2×2 tensor with data `[1, 2, 3, 4]`, slice 1 is
`[3, 4]` and copying it back out at offset 1 reproduces it. -/
theorem extractSlice_roundtrip_witness :
    (STensor.mk [1, 2] [3, 4]).data =
      ((STensor.mk [2, 2] [(1 : ℚ), 2, 3, 4]).data.drop
        (1 * sliceSize (STensor.mk [2, 2] [(1 : ℚ), 2, 3, 4]))).take
        (sliceSize (STensor.mk [2, 2] [(1 : ℚ), 2, 3, 4])) ∧
    (STensor.mk [1, 2] [3, 4]).copyConsecutiveSlices
        (STensor.mk [2, 2] [1, 2, 3, 4]) 1 =
      .ok (STensor.mk [1, 2] [3, 4]) :=
  extractSlice_roundtrip (STensor.mk [2, 2] [1, 2, 3, 4]) 1
    (STensor.mk [1, 2] [3, 4]) (by rfl)

theorem bindAllWith_invalid (check : List ℕ → STensor → Except TensorError Unit)
    (hc : ∀ vs t, check vs t = .ok () ∨ check vs t = .error .InvalidShape)
    (binds : List (List ℕ × STensor))
    (h : ∃ p ∈ binds, check p.1 p.2 ≠ .ok ()) :
    bindAllWith check binds = .error .InvalidShape := by
  induction binds with
  | nil => simp at h
  | cons hd rest ih =>
    obtain ⟨p, hp, hbad⟩ := h
    obtain ⟨vs, t⟩ := hd
    rcases hc vs t with hok | herr
    · simp only [bindAllWith, hok]
      rcases List.mem_cons.1 hp with hph | hpr
      · subst hph; exact absurd hok hbad
      · exact ih ⟨p, hpr, hbad⟩
    · simp [bindAllWith, herr]

/-- C6: for any infer or train call, binding an input tensor whose dimensions
are zero or mismatched with respect to the bound variable's shape fails with
`InvalidShape` at bind time, for every possible forward/step computation —
so the error is never deferred into the training or inference loop. -/
theorem bind_invalid_shape (forward : List STensor → STensor)
    (body : List STensor → List STensor) (iterations : ℕ)
    (binds : List (List ℕ × STensor)) :
    ((∃ p ∈ binds, 0 ∈ p.2.shape ∨ p.2.shape ≠ p.1) →
      Network.infer forward binds = .error .InvalidShape) ∧
    ((∃ p ∈ binds, 0 ∈ p.2.shape ∨ p.2.shape.tail ≠ p.1.tail) →
      Network.train body iterations binds = .error .InvalidShape) := by
  constructor
  · intro h
    have hbind : bindAllWith bindCheckInfer binds = .error .InvalidShape := by
      apply bindAllWith_invalid
      · intro vs t
        by_cases hc : 0 ∈ t.shape ∨ t.shape ≠ vs
        · right; simp [bindCheckInfer, hc]
        · left; simp [bindCheckInfer, hc]
      · obtain ⟨p, hp, hbad⟩ := h
        exact ⟨p, hp, by simp [bindCheckInfer, hbad]⟩
    simp [Network.infer, hbind]
  · intro h
    have hbind : bindAllWith bindCheckTrain binds = .error .InvalidShape := by
      apply bindAllWith_invalid
      · intro vs t
        by_cases hc : 0 ∈ t.shape ∨ t.shape.tail ≠ vs.tail
        · right; simp [bindCheckTrain, hc]
        · left; simp [bindCheckTrain, hc]
      · obtain ⟨p, hp, hbad⟩ := h
        exact ⟨p, hp, by simp [bindCheckTrain, hbad]⟩
    simp [Network.train, hbind]

/-- C6 witness: binding a `{8,3,32,32}` tensor to a variable of shape
`{8,32,32,3}` makes `infer` fail with `InvalidShape` immediately, whatever
the forward computation would have been. -/
theorem bind_invalid_shape_witness :
    Network.infer (fun _ => STensor.mk [] [])
        [([8, 32, 32, 3], STensor.mk [8, 3, 32, 32] [])] =
      .error .InvalidShape :=
  (bind_invalid_shape (fun _ => STensor.mk [] []) (fun l => l) 0
    [([8, 32, 32, 3], STensor.mk [8, 3, 32, 32] [])]).1 (by decide)

/-- C1: one optimizer step maps each parameter element (w, g, v) to
(w + v', 0, v') where v' = momentum*v - learningRate*(g + L2Decay*w): the
update g' = g + L2Decay*w, v := momentum*v - learningRate*g', w := w + v is
applied exactly once per parameter (the step is an elementwise map preserving
length), and every gradient accumulator is reset to zero immediately after. -/
theorem sgd_update_spec (c : TrainingConfig) (ps : List ParamState) (i : ℕ)
    (hi : i < ps.length) :
    (optimizerStep c ps).length = ps.length ∧
    (optimizerStep c ps).getD i ⟨0, 0, 0⟩ =
      ⟨(ps.getD i ⟨0, 0, 0⟩).weight +
        (c.momentum * (ps.getD i ⟨0, 0, 0⟩).velocity -
          c.learningRate * ((ps.getD i ⟨0, 0, 0⟩).grad +
            c.L2Decay * (ps.getD i ⟨0, 0, 0⟩).weight)),
       0,
       c.momentum * (ps.getD i ⟨0, 0, 0⟩).velocity -
         c.learningRate * ((ps.getD i ⟨0, 0, 0⟩).grad +
           c.L2Decay * (ps.getD i ⟨0, 0, 0⟩).weight)⟩ := by
  have hlen : (optimizerStep c ps).length = ps.length := by
    simp [optimizerStep]
  refine ⟨hlen, ?_⟩
  rw [List.getD_eq_getElem _ _ (by omega), List.getD_eq_getElem _ _ hi]
  simp [optimizerStep, sgdElem]

/-- C1 witness: the update applied to the single parameter (w, g, v) =
(1, 2, 3) with learningRate 1/2, momentum 1/3, L2Decay 1/4. -/
theorem sgd_update_spec_witness :
    (optimizerStep ⟨1/2, 1/3, 1/4⟩ [⟨1, 2, 3⟩]).length = [(⟨1, 2, 3⟩ : ParamState)].length ∧
    (optimizerStep ⟨1/2, 1/3, 1/4⟩ [⟨1, 2, 3⟩]).getD 0 ⟨0, 0, 0⟩ =
      ⟨([(⟨1, 2, 3⟩ : ParamState)].getD 0 ⟨0, 0, 0⟩).weight +
        ((1/3 : ℚ) * ([(⟨1, 2, 3⟩ : ParamState)].getD 0 ⟨0, 0, 0⟩).velocity -
          (1/2 : ℚ) * (([(⟨1, 2, 3⟩ : ParamState)].getD 0 ⟨0, 0, 0⟩).grad +
            (1/4 : ℚ) * ([(⟨1, 2, 3⟩ : ParamState)].getD 0 ⟨0, 0, 0⟩).weight)),
       0,
       (1/3 : ℚ) * ([(⟨1, 2, 3⟩ : ParamState)].getD 0 ⟨0, 0, 0⟩).velocity -
         (1/2 : ℚ) * (([(⟨1, 2, 3⟩ : ParamState)].getD 0 ⟨0, 0, 0⟩).grad +
           (1/4 : ℚ) * ([(⟨1, 2, 3⟩ : ParamState)].getD 0 ⟨0, 0, 0⟩).weight)⟩ :=
  sgd_update_spec ⟨1/2, 1/3, 1/4⟩ [⟨1, 2, 3⟩] 0 (by decide)

/-- C7: the embedded engine is a pure function of its inputs, so two runs with
identical configuration, identical parameter initialization (same seed),
identical gradient schedule (dataset order) and identical bound inputs
produce identical training results and identical inference outputs. -/
theorem train_infer_deterministic
    (c₁ c₂ : TrainingConfig) (init₁ init₂ : List ParamState)
    (sched₁ sched₂ : List (List ℚ)) (seed₁ seed₂ n : ℕ)
    (forward : List STensor → STensor) (binds₁ binds₂ : List (List ℕ × STensor))
    (hc : c₁ = c₂) (hinit : init₁ = init₂) (hsched : sched₁ = sched₂)
    (hseed : seed₁ = seed₂) (hbinds : binds₁ = binds₂) :
    trainRun c₁ init₁ sched₁ = trainRun c₂ init₂ sched₂ ∧
    initParams seed₁ n = initParams seed₂ n ∧
    Network.infer forward binds₁ = Network.infer forward binds₂ := by
  subst hc; subst hinit; subst hsched; subst hseed; subst hbinds
  exact ⟨rfl, rfl, rfl⟩

/-- C7 witness: a concrete repeated run with the example's configuration. -/
theorem train_infer_deterministic_witness :
    trainRun ⟨1/1000, 9/10, 1/10000⟩ [⟨1, 0, 0⟩] [[1]] =
      trainRun ⟨1/1000, 9/10, 1/10000⟩ [⟨1, 0, 0⟩] [[1]] ∧
    initParams 0 2 = initParams 0 2 ∧
    Network.infer (fun _ => STensor.mk [] []) [] =
      Network.infer (fun _ => STensor.mk [] []) [] :=
  train_infer_deterministic ⟨1/1000, 9/10, 1/10000⟩ ⟨1/1000, 9/10, 1/10000⟩
    [⟨1, 0, 0⟩] [⟨1, 0, 0⟩] [[1]] [[1]] 0 0 2 (fun _ => STensor.mk [] []) [] []
    rfl rfl rfl rfl rfl

/-- C9: any tensor with the shape of the softmax root of `createSimpleNet`
(over the example's `{8,32,32,3}` input) and consistent storage yields, for
every in-range leading index, a slice of exactly 10 elements (the
FullyConnected layer's configured output width); `maxArg()` on that slice
returns a guess below 10, so indexing the 10-entry `textualLabels` table with
it stays in bounds. -/
theorem softmax_slice_safe (t : STensor) (i : ℕ)
    (hshape : t.shape = simpleNetOutShape [8, 32, 32, 3])
    (hdata : t.data.length = t.shape.prod) (hi : i < leadingDim t) :
    ∃ s g, t.extractSlice i = .ok s ∧ s.data.length = 10 ∧
      s.maxArg = .ok g ∧ g < 10 ∧ g < textualLabels.length := by
  have hsh : t.shape = [8, 10] := by rw [hshape]; decide
  have hld : leadingDim t = 8 := by rw [leadingDim, hsh]; rfl
  have hss : sliceSize t = 10 := by rw [sliceSize, hsh]; rfl
  have hlen : t.data.length = 80 := by rw [hdata, hsh]; rfl
  have hi8 : i < 8 := hld ▸ hi
  have hex : t.extractSlice i =
      .ok ⟨1 :: t.shape.tail, (t.data.drop (i * sliceSize t)).take (sliceSize t)⟩ := by
    unfold STensor.extractSlice
    rw [if_pos hi]
  have hslen : ((t.data.drop (i * sliceSize t)).take (sliceSize t)).length = 10 := by
    rw [List.length_take, List.length_drop, hss, hlen]
    omega
  have hne : (t.data.drop (i * sliceSize t)).take (sliceSize t) ≠ [] := by
    intro h0
    rw [h0] at hslen
    simp at hslen
  obtain ⟨g, hg, hglt, -, -⟩ := maxArg_ok_of_ne_nil
    ⟨1 :: t.shape.tail, (t.data.drop (i * sliceSize t)).take (sliceSize t)⟩ hne
  refine ⟨_, g, hex, hslen, hg, ?_, ?_⟩
  · have := hglt
    simp only at this
    omega
  · have : textualLabels.length = 10 := by rfl
    have hg10 : g < 10 := by
      have := hglt
      simp only at this
      omega
    omega

/-- C9 witness: the all-zero tensor of the softmax root's shape, slice 0. -/
theorem softmax_slice_safe_witness :
    ∃ s g, (STensor.mk [8, 10] (List.replicate 80 0)).extractSlice 0 = .ok s ∧
      s.data.length = 10 ∧ s.maxArg = .ok g ∧ g < 10 ∧ g < textualLabels.length :=
  softmax_slice_safe (STensor.mk [8, 10] (List.replicate 80 0)) 0
    (by decide) (by simp) (by decide)

theorem foldl_range_succ {α : Type} (g : α → ℕ → α) (n : ℕ) (s : α) :
    (List.range (n + 1)).foldl g s = g ((List.range n).foldl g s) n := by
  rw [List.range_succ, List.foldl_append]
  rfl

theorem loopX_succ (f : ℕ → ℕ) (w y z n : ℕ) (s : LoadState) :
    loopX f w y z (n + 1) s =
      storePixel w n y z ((readByte f ((loopX f w y z n s).idx) : ℚ) / 255)
        (loopX f w y z n s) := by
  unfold loopX
  exact foldl_range_succ _ n s

theorem loopX_idx (f : ℕ → ℕ) (w y z n : ℕ) (s : LoadState) :
    (loopX f w y z n s).idx = s.idx + n := by
  induction n with
  | zero => rfl
  | succ n ih =>
    rw [loopX_succ]
    simp only [storePixel]
    omega

theorem loopX_labels (f : ℕ → ℕ) (w y z n : ℕ) (s : LoadState) :
    (loopX f w y z n s).labels = s.labels := by
  induction n with
  | zero => rfl
  | succ n ih =>
    rw [loopX_succ]
    simpa only [storePixel] using ih

theorem loopX_images_lt (f : ℕ → ℕ) (w y z n : ℕ) (s : LoadState)
    (x : ℕ) (hx : x < n) :
    (loopX f w y z n s).images w x y z = (readByte f (s.idx + x) : ℚ) / 255 := by
  induction n with
  | zero => omega
  | succ n ih =>
    rw [loopX_succ]
    simp only [storePixel]
    by_cases hxn : x = n
    · subst hxn
      rw [if_pos (by tauto), loopX_idx]
    · rw [if_neg (by tauto)]
      exact ih (by omega)

theorem loopX_images_ne (f : ℕ → ℕ) (w y z n : ℕ) (s : LoadState)
    (a b c d : ℕ) (h : a ≠ w ∨ c ≠ y ∨ d ≠ z ∨ n ≤ b) :
    (loopX f w y z n s).images a b c d = s.images a b c d := by
  induction n with
  | zero => rfl
  | succ n ih =>
    rw [loopX_succ]
    simp only [storePixel]
    rw [if_neg (by rcases h with h | h | h | h <;> [tauto; tauto; tauto; (intro hc; omega)])]
    refine ih ?_
    rcases h with h | h | h | h
    exacts [Or.inl h, Or.inr (Or.inl h), Or.inr (Or.inr (Or.inl h)),
      Or.inr (Or.inr (Or.inr (by omega)))]

theorem loopY_succ (f : ℕ → ℕ) (w z n : ℕ) (s : LoadState) :
    loopY f w z (n + 1) s = loopX f w n z 32 (loopY f w z n s) := by
  unfold loopY
  exact foldl_range_succ _ n s

theorem loopY_idx (f : ℕ → ℕ) (w z n : ℕ) (s : LoadState) :
    (loopY f w z n s).idx = s.idx + 32 * n := by
  induction n with
  | zero => rfl
  | succ n ih =>
    rw [loopY_succ, loopX_idx, ih]
    ring

theorem loopY_labels (f : ℕ → ℕ) (w z n : ℕ) (s : LoadState) :
    (loopY f w z n s).labels = s.labels := by
  induction n with
  | zero => rfl
  | succ n ih =>
    rw [loopY_succ, loopX_labels, ih]

theorem loopY_images_lt (f : ℕ → ℕ) (w z n : ℕ) (s : LoadState)
    (y : ℕ) (hy : y < n) (x : ℕ) (hx : x < 32) :
    (loopY f w z n s).images w x y z =
      (readByte f (s.idx + 32 * y + x) : ℚ) / 255 := by
  induction n with
  | zero => omega
  | succ n ih =>
    rw [loopY_succ]
    by_cases hyn : y = n
    · subst hyn
      rw [loopX_images_lt f w y z 32 _ x hx, loopY_idx]
    · rw [loopX_images_ne f w n z 32 _ w x y z (by tauto)]
      exact ih (by omega)

theorem loopY_images_ne (f : ℕ → ℕ) (w z n : ℕ) (s : LoadState)
    (a b c d : ℕ) (h : a ≠ w ∨ d ≠ z ∨ n ≤ c) :
    (loopY f w z n s).images a b c d = s.images a b c d := by
  induction n with
  | zero => rfl
  | succ n ih =>
    rw [loopY_succ]
    rw [loopX_images_ne f w n z 32 _ a b c d
      (by rcases h with h | h | h <;> [tauto; tauto; (right; left; omega)])]
    exact ih (by rcases h with h | h | h <;> [tauto; tauto; (right; right; omega)])

theorem loopZ_succ (f : ℕ → ℕ) (w n : ℕ) (s : LoadState) :
    loopZ f w (n + 1) s = loopY f w n 32 (loopZ f w n s) := by
  unfold loopZ
  exact foldl_range_succ _ n s

theorem loopZ_idx (f : ℕ → ℕ) (w n : ℕ) (s : LoadState) :
    (loopZ f w n s).idx = s.idx + 1024 * n := by
  induction n with
  | zero => rfl
  | succ n ih =>
    rw [loopZ_succ, loopY_idx, ih]
    ring

theorem loopZ_labels (f : ℕ → ℕ) (w n : ℕ) (s : LoadState) :
    (loopZ f w n s).labels = s.labels := by
  induction n with
  | zero => rfl
  | succ n ih =>
    rw [loopZ_succ, loopY_labels, ih]

theorem loopZ_images_lt (f : ℕ → ℕ) (w n : ℕ) (s : LoadState)
    (z : ℕ) (hz : z < n) (y : ℕ) (hy : y < 32) (x : ℕ) (hx : x < 32) :
    (loopZ f w n s).images w x y z =
      (readByte f (s.idx + 1024 * z + 32 * y + x) : ℚ) / 255 := by
  induction n with
  | zero => omega
  | succ n ih =>
    rw [loopZ_succ]
    by_cases hzn : z = n
    · subst hzn
      rw [loopY_images_lt f w z 32 _ y hy x hx, loopZ_idx]
    · rw [loopY_images_ne f w n 32 _ w x y z (by tauto)]
      exact ih (by omega)

theorem loopZ_images_ne (f : ℕ → ℕ) (w n : ℕ) (s : LoadState)
    (a b c d : ℕ) (h : a ≠ w ∨ n ≤ d) :
    (loopZ f w n s).images a b c d = s.images a b c d := by
  induction n with
  | zero => rfl
  | succ n ih =>
    rw [loopZ_succ]
    rw [loopY_images_ne f w n 32 _ a b c d
      (by rcases h with h | h <;> [tauto; (right; left; omega)])]
    exact ih (by rcases h with h | h <;> [tauto; (right; omega)])

theorem loadImage_idx (f : ℕ → ℕ) (w : ℕ) (s : LoadState) :
    (loadImage f w s).idx = s.idx + 3073 := by
  unfold loadImage
  rw [loopZ_idx]

theorem loadImage_images_lt (f : ℕ → ℕ) (w : ℕ) (s : LoadState)
    (z : ℕ) (hz : z < 3) (y : ℕ) (hy : y < 32) (x : ℕ) (hx : x < 32) :
    (loadImage f w s).images w x y z =
      (readByte f (s.idx + 1 + 1024 * z + 32 * y + x) : ℚ) / 255 := by
  unfold loadImage
  exact loopZ_images_lt f w 3 _ z hz y hy x hx

theorem loadImage_images_ne (f : ℕ → ℕ) (w : ℕ) (s : LoadState)
    (a b c d : ℕ) (h : a ≠ w) :
    (loadImage f w s).images a b c d = s.images a b c d := by
  unfold loadImage
  exact loopZ_images_ne f w 3 _ a b c d (Or.inl h)

theorem loopW_succ (f : ℕ → ℕ) (n : ℕ) (s : LoadState) :
    loopW f (n + 1) s = loadImage f n (loopW f n s) := by
  unfold loopW
  exact foldl_range_succ _ n s

theorem loopW_idx (f : ℕ → ℕ) (n : ℕ) (s : LoadState) :
    (loopW f n s).idx = s.idx + 3073 * n := by
  induction n with
  | zero => rfl
  | succ n ih =>
    rw [loopW_succ, loadImage_idx, ih]
    ring

theorem loopW_images (f : ℕ → ℕ) (n : ℕ) (s : LoadState)
    (w : ℕ) (hw : w < n) (z : ℕ) (hz : z < 3) (y : ℕ) (hy : y < 32)
    (x : ℕ) (hx : x < 32) :
    (loopW f n s).images w x y z =
      (readByte f (s.idx + 3073 * w + 1 + 1024 * z + 32 * y + x) : ℚ) / 255 := by
  induction n with
  | zero => omega
  | succ n ih =>
    rw [loopW_succ]
    by_cases hwn : w = n
    · subst hwn
      rw [loadImage_images_lt f w _ z hz y hy x hx, loopW_idx]
    · rw [loadImage_images_ne f n _ w x y z hwn]
      exact ih (by omega)

/-- C8: after the loading loop, the images tensor holds at index
`{w, x, y, z}` the value `byte/255` where `byte` is the pixel at file row `y`,
file column `x` of plane `z` of image `w` (stream position
`w*3073 + 1 + z*1024 + y*32 + x`) — so each 32×32 plane is stored with row
and column indices swapped relative to the file's row-major layout — and every
stored pixel value lies in [0, 1]. -/
theorem cifar_pixel_layout (f : ℕ → ℕ) (w x y z : ℕ)
    (hw : w < 10000) (hx : x < 32) (hy : y < 32) (hz : z < 3) :
    (loadCIFAR f).images w x y z =
      (readByte f (w * 3073 + 1 + z * 1024 + y * 32 + x) : ℚ) / 255 ∧
    0 ≤ (loadCIFAR f).images w x y z ∧
    (loadCIFAR f).images w x y z ≤ 1 := by
  have h := loopW_images f 10000 ⟨0, fun _ => 0, fun _ _ _ _ => 0⟩ w hw z hz y hy x hx
  have harg : (0 : ℕ) + 3073 * w + 1 + 1024 * z + 32 * y + x =
      w * 3073 + 1 + z * 1024 + y * 32 + x := by ring
  rw [loadCIFAR, cifarNumImages]
  rw [h, harg]
  refine ⟨rfl, ?_, ?_⟩
  · exact div_nonneg (Nat.cast_nonneg _) (by norm_num)
  · rw [div_le_one (by norm_num)]
    have hb : readByte f (w * 3073 + 1 + z * 1024 + y * 32 + x) ≤ 255 := by
      have := Nat.mod_lt (f (w * 3073 + 1 + z * 1024 + y * 32 + x)) (show 0 < 256 by norm_num)
      unfold readByte
      omega
    exact_mod_cast hb

/-- C8 witness: the identity byte stream at index `{0, 0, 0, 0}`: the stored
value is byte 1 of the stream over 255, and it lies in [0, 1]. -/
theorem cifar_pixel_layout_witness :
    (loadCIFAR (fun i => i)).images 0 0 0 0 =
      (readByte (fun i => i) (0 * 3073 + 1 + 0 * 1024 + 0 * 32 + 0) : ℚ) / 255 ∧
    0 ≤ (loadCIFAR (fun i => i)).images 0 0 0 0 ∧
    (loadCIFAR (fun i => i)).images 0 0 0 0 ≤ 1 :=
  cifar_pixel_layout (fun i => i) 0 0 0 0 (by decide) (by decide) (by decide) (by decide)

/-- C10: the byte counter `idx` after the loading loop equals
`cifarImageSize * cifarNumImages = (1 + 32*32*3) * 10000 = 30730000`
regardless of the file contents, so the assertion
`idx == cifarImageSize * cifarNumImages` always holds. -/
theorem cifar_idx_total (f : ℕ → ℕ) :
    (loadCIFAR f).idx = cifarImageSize * cifarNumImages ∧
    cifarImageSize * cifarNumImages = 30730000 := by
  constructor
  · rw [loadCIFAR, loopW_idx]
    norm_num [cifarImageSize, cifarNumImages]
  · norm_num [cifarImageSize, cifarNumImages]

end Glow
